import Mathlib

/-!
Shallow embedding of `src/cli/http_cache.rs` (the Deno HTTP cache core):
the name-derivation scheme (`base_url_to_filename`, `url_to_filename`) and the
`HttpCache` store with its `get`/`set` operations, together with proofs of the
specification's claims about them.

Filesystem state is modelled as a map from paths (lists of path segments) to
file contents; the I/O and serialization collaborators that can fail are
modelled by an explicit oracle (`SetEffects`) saying which step succeeds.
Rust panics (`unimplemented!`, `Option::unwrap`, `expect`) are modelled as
distinguished error values that propagate to the caller.
-/

namespace HttpCacheModel

/-- Model of a parsed URL (the `url::Url` collaborator), restricted to the
components this module consults: scheme, host, port, path, query, fragment.
`port` models `Url::port()`, which is `none` when the port is absent or is the
default port for the scheme, and `some p` exactly when a non-default port is
present. -/
structure Url where
  scheme : String
  host : Option String
  port : Option Nat
  path : String
  query : Option String
  fragment : Option String
deriving DecidableEq

/-- Failure modes of the cache core. `UnsupportedScheme` models the
`unimplemented!` panic in `base_url_to_filename`; `PanicNoHost` the
`url.host_str().unwrap()` panic; `PanicParentMissing` the
`cache_filename.parent().expect(..)` panic in `set`. The remaining
constructors model the `ErrBox` errors returned by `get`/`set`. -/
inductive CacheErr where
  | UnsupportedScheme (scheme : String)
  | PanicNoHost
  | PanicParentMissing
  | NotFound
  | ParseError
  | IOError
  | SerializationError
deriving DecidableEq

/-- The metadata mapping (`HeadersMap = HashMap<String, String>`), modelled as
an association list of header key/value pairs. -/
abbrev Headers := List (String × String)

/-- Modelled from the spec: the JSON-object encode/decode primitive for the
metadata mapping is an external collaborator (serde_json; not part of src/).
A file on disk either holds raw bytes or holds the serialized form of a
string-to-string mapping; decoding a metadata file succeeds exactly on the
latter and yields back the mapping, and raw bytes in a metadata file are the
"present but malformed" case. -/
inductive FileContent where
  | raw (bytes : List Nat)
  | headersJson (m : Headers)
deriving DecidableEq

/-- The filesystem under the cache root: a partial map from absolute paths
(lists of segments) to file contents. -/
abbrev FS := List String → Option FileContent

/-- UTF-8 encoding of a single character (`str::as_bytes` is the UTF-8 byte
sequence of the string). -/
def utf8Char (c : Char) : List Nat :=
  let n := c.toNat
  if n < 0x80 then [n]
  else if n < 0x800 then [0xC0 + n / 0x40, 0x80 + n % 0x40]
  else if n < 0x10000 then [0xE0 + n / 0x1000, 0x80 + n / 0x40 % 0x40, 0x80 + n % 0x40]
  else [0xF0 + n / 0x40000, 0x80 + n / 0x1000 % 0x40, 0x80 + n / 0x40 % 0x40, 0x80 + n % 0x40]

/-- The UTF-8 bytes of a string (`str::as_bytes`). -/
def strBytes (s : String) : List Nat :=
  s.data.foldr (fun c acc => utf8Char c ++ acc) []

/-- One lowercase hexadecimal digit character for a value below 16. -/
def hexDigit (n : Nat) : Char :=
  match n with
  | 0 => '0' | 1 => '1' | 2 => '2' | 3 => '3'
  | 4 => '4' | 5 => '5' | 6 => '6' | 7 => '7'
  | 8 => '8' | 9 => '9' | 10 => 'a' | 11 => 'b'
  | 12 => 'c' | 13 => 'd' | 14 => 'e' | _ => 'f'

/-- Fixed-width lowercase hexadecimal rendering of a natural number. -/
def natToHex (width n : Nat) : String :=
  String.mk ((List.range width).map (fun i => hexDigit (n / 16 ^ (width - 1 - i) % 16)))

/-- Modelled from the spec: `crate::checksum::gen` (src/cli/checksum.rs is not
among the provided sources). The spec requires only a deterministic, stable,
hex-encoded digest of the input byte sequences, the exact algorithm being an
implementation choice; this model folds the bytes into a 64-bit accumulator
and renders it as 16 lowercase hex digits. -/
def checksum_gen (v : List (List Nat)) : String :=
  natToHex 16 (v.foldl (fun h bs => bs.foldl (fun h2 b => (h2 * 31 + b) % 2 ^ 64) h) 5381)

/-- `base_url_to_filename`: turn the base of a URL (scheme, hostname, port)
into a relative path of two segments. A non-default port is rendered as
`<host>_PORT<port>` because `:` cannot be used in filenames on some platforms.
Schemes other than `http`/`https` hit the `unimplemented!` panic, and a
missing host the `unwrap` panic, both modelled as errors. -/
def base_url_to_filename (url : Url) : Except CacheErr (List String) :=
  if url.scheme = "http" ∨ url.scheme = "https" then
    match url.host with
    | none => .error .PanicNoHost
    | some host =>
      match url.port with
      | some port => .ok [url.scheme, host ++ "_PORT" ++ toString port]
      | none => .ok [url.scheme, host]
  else .error (.UnsupportedScheme url.scheme)

/-- The `rest_str` built in `url_to_filename`: the URL path, followed by a
literal `?` and the query string when a query is present. The fragment is
omitted on purpose. -/
def rest_string (url : Url) : String :=
  url.path ++ (match url.query with | some query => "?" ++ query | none => "")

/-- `url_to_filename`: turn a URL into a hashed relative filename
`<scheme>/<host segment>/<hex digest of rest_str>`. -/
def url_to_filename (url : Url) : Except CacheErr (List String) :=
  match base_url_to_filename url with
  | .error e => .error e
  | .ok cache_filename => .ok (cache_filename ++ [checksum_gen [strBytes (rest_string url)]])

/-- Rust `Path::file_stem` for a non-empty final component: the portion of the
component before its last `.`, where a single leading `.` does not begin an
extension. -/
def file_stem (s : String) : String :=
  match s.data with
  | [] => s
  | c :: t =>
    match t.reverse.dropWhile (fun ch => ch != '.') with
    | [] => s
    | _ :: restRev => String.mk (c :: restRev.reverse)

/-- Rust `Path::with_extension` applied to the final component of a path:
replace the component's extension (the text after its last `.`) by `ext`. -/
def with_extension_name (fname ext : String) : String :=
  file_stem fname ++ "." ++ ext

/-- Rust `PathBuf::with_extension` on a path given as a list of segments. -/
def with_extension (p : List String) (ext : String) : List String :=
  match p.reverse with
  | [] => []
  | last :: restRev => restRev.reverse ++ [with_extension_name last ext]

/-- Rust `Path::parent` on a path given as a list of segments: defined for
every non-empty path. -/
def pathParent (p : List String) : Option (List String) :=
  match p with
  | [] => none
  | _ :: _ => some p.dropLast

/-- The cache store: a root directory location, fixed at construction. -/
structure HttpCache where
  location : List String

/-- Outcome oracle for the fallible collaborators used by `set`, in the order
`set` invokes them: `fs::create_dir_all`, the content `write_file`,
`serde_json::to_string`, and the headers `write_file`. -/
structure SetEffects where
  createDirOk : Bool
  writeContentOk : Bool
  serializeOk : Bool
  writeHeadersOk : Bool

/-- `HttpCache::get`: open the content file at the derived path (NotFound if
absent), then read and deserialize the sidecar `.headers.json` metadata file
(NotFound if absent, ParseError if present but malformed). Returns the content
file and the materialized metadata mapping. -/
def HttpCache.get (self : HttpCache) (fs : FS) (url : Url) :
    Except CacheErr (FileContent × Headers) :=
  match url_to_filename url with
  | .error e => .error e
  | .ok rel =>
    match fs (self.location ++ rel) with
    | none => .error .NotFound
    | some file =>
      match fs (with_extension (self.location ++ rel) "headers.json") with
      | none => .error .NotFound
      | some (.headersJson m) => .ok (file, m)
      | some (.raw _) => .error .ParseError

/-- `HttpCache::set`: derive the cache path, check it has a parent directory
(an `expect` panic otherwise), create the parent directory, write the content
bytes, serialize the metadata mapping, and write the metadata file, failing at
whichever step the `SetEffects` oracle fails. Returns the updated filesystem
and the result. -/
def HttpCache.set (self : HttpCache) (eff : SetEffects) (fs : FS) (url : Url)
    (headers_map : Headers) (content : List Nat) : FS × Except CacheErr Unit :=
  match url_to_filename url with
  | .error e => (fs, .error e)
  | .ok rel =>
    match pathParent (self.location ++ rel) with
    | none => (fs, .error .PanicParentMissing)
    | some _ =>
      if eff.createDirOk = false then (fs, .error .IOError)
      else if eff.writeContentOk = false then (fs, .error .IOError)
      else
        let fs1 : FS := fun p =>
          if p = self.location ++ rel then some (.raw content) else fs p
        if eff.serializeOk = false then (fs1, .error .SerializationError)
        else if eff.writeHeadersOk = false then (fs1, .error .IOError)
        else
          (fun p =>
            if p = with_extension (self.location ++ rel) "headers.json" then
              some (.headersJson headers_map)
            else fs1 p,
           .ok ())

/-- Follows the spec's words (§3 CachePath): the host segment is the host
name, or `<host>_PORT<port>` when a non-default port is present. -/
def hostSegment_spec (host : String) (port : Option Nat) : String :=
  match port with
  | some p => host ++ "_PORT" ++ toString p
  | none => host

/-- Follows the spec's words (§3 CachePath, §4.1 derivePath): the three-segment
relative path `<scheme>/<host segment>/<hex digest>`, where the digest is taken
over the UTF-8 bytes of the URL path concatenated with a literal `?` plus the
query string exactly when a query is present; the fragment is never consulted.
Stated independently of `url_to_filename` so the two can be compared. -/
def derivePath_spec (u : Url) (host : String) : List String :=
  [u.scheme,
   hostSegment_spec host u.port,
   checksum_gen [strBytes (u.path ++ (match u.query with | some q => "?" ++ q | none => ""))]]


/-! ## Derived facts about the embedding -/

lemma hexDigit_ne_dot (n : Nat) : hexDigit n ≠ '.' := by
  unfold hexDigit; split <;> decide

lemma natToHex_no_dot (w n : Nat) : '.' ∉ (natToHex w n).data := by
  intro hmem
  unfold natToHex at hmem
  simp only [String.data, List.mem_map] at hmem
  obtain ⟨i, _, hi⟩ := hmem
  exact hexDigit_ne_dot _ hi

lemma checksum_gen_no_dot (v : List (List Nat)) : '.' ∉ (checksum_gen v).data :=
  natToHex_no_dot _ _

lemma file_stem_no_dot (s : String) (h : '.' ∉ s.data) : file_stem s = s := by
  unfold file_stem
  cases hd : s.data with
  | nil => rfl
  | cons c t =>
    have hnil : t.reverse.dropWhile (fun ch => ch != '.') = [] := by
      rw [List.dropWhile_eq_nil_iff]
      intro ch hch
      simp only [bne_iff_ne, ne_eq]
      intro hcontra
      subst hcontra
      exact h (hd ▸ List.mem_cons_of_mem _ (List.mem_reverse.mp hch))
    show (match t.reverse.dropWhile (fun ch => ch != '.') with
      | [] => s
      | _ :: restRev => String.mk (c :: restRev.reverse)) = s
    rw [hnil]

lemma with_extension_name_of_no_dot (d ext : String) (h : '.' ∉ d.data) :
    with_extension_name d ext = d ++ "." ++ ext := by
  unfold with_extension_name
  rw [file_stem_no_dot d h]

lemma with_extension_append (q : List String) (d ext : String) :
    with_extension (q ++ [d]) ext = q ++ [with_extension_name d ext] := by
  unfold with_extension
  have hrev : (q ++ [d]).reverse = d :: q.reverse := by simp
  rw [hrev]
  simp

lemma with_extension_ne (q : List String) (d ext : String) (hd : '.' ∉ d.data) :
    with_extension (q ++ [d]) ext ≠ q ++ [d] := by
  rw [with_extension_append, with_extension_name_of_no_dot d ext hd]
  intro hcontra
  have h2 : [d ++ "." ++ ext] = [d] := List.append_cancel_left hcontra
  have h3 : d ++ "." ++ ext = d := by injection h2
  have h4 := congrArg String.length h3
  rw [String.length_append, String.length_append] at h4
  have h5 : ".".length = 1 := rfl
  rw [h5] at h4
  omega

lemma pathParent_append_last (q : List String) (a b c3 : String) :
    pathParent (q ++ [a, b, c3]) = some ((q ++ [a, b, c3]).dropLast) := by
  cases q <;> rfl

lemma base_url_eval (u : Url) (host : String)
    (hs : u.scheme = "http" ∨ u.scheme = "https") (hh : u.host = some host) :
    base_url_to_filename u = .ok [u.scheme, hostSegment_spec host u.port] := by
  unfold base_url_to_filename
  rw [if_pos hs, hh]
  cases hp : u.port with
  | none => rfl
  | some p => rfl

lemma base_url_to_filename_ok_inv (u : Url) (b : List String)
    (h : base_url_to_filename u = .ok b) :
    (u.scheme = "http" ∨ u.scheme = "https") ∧ ∃ host, u.host = some host := by
  unfold base_url_to_filename at h
  by_cases hs : u.scheme = "http" ∨ u.scheme = "https"
  · refine ⟨hs, ?_⟩
    rw [if_pos hs] at h
    cases hh : u.host with
    | none => rw [hh] at h; exact Except.noConfusion h
    | some host => exact ⟨host, rfl⟩
  · rw [if_neg hs] at h; exact Except.noConfusion h

lemma url_to_filename_eval (u : Url) (host : String)
    (hs : u.scheme = "http" ∨ u.scheme = "https") (hh : u.host = some host) :
    url_to_filename u =
      .ok [u.scheme, hostSegment_spec host u.port, checksum_gen [strBytes (rest_string u)]] := by
  unfold url_to_filename
  rw [base_url_eval u host hs hh]
  rfl

lemma url_to_filename_ok_inv (u : Url) (rel : List String)
    (h : url_to_filename u = .ok rel) :
    ∃ host, (u.scheme = "http" ∨ u.scheme = "https") ∧ u.host = some host ∧
      rel = [u.scheme, hostSegment_spec host u.port, checksum_gen [strBytes (rest_string u)]] := by
  unfold url_to_filename at h
  cases hb : base_url_to_filename u with
  | error e => rw [hb] at h; exact Except.noConfusion h
  | ok b =>
    rw [hb] at h
    obtain ⟨hs, host, hh⟩ := base_url_to_filename_ok_inv u b hb
    refine ⟨host, hs, hh, ?_⟩
    have hb2 := base_url_eval u host hs hh
    rw [hb] at hb2
    have hbeq := Except.ok.inj hb2
    have h2 := Except.ok.inj h
    rw [← h2, hbeq]
    rfl
lemma set_ok_inv (cc : HttpCache) (eff : SetEffects) (fs : FS) (u : Url)
    (M : Headers) (B : List Nat)
    (hset : (HttpCache.set cc eff fs u M B).2 = .ok ()) :
    ∃ rel, url_to_filename u = .ok rel ∧
      (HttpCache.set cc eff fs u M B).1 = fun p =>
        if p = with_extension (cc.location ++ rel) "headers.json" then some (.headersJson M)
        else if p = cc.location ++ rel then some (.raw B) else fs p := by
  cases hu : url_to_filename u with
  | error e => simp [HttpCache.set, hu] at hset
  | ok rel =>
    refine ⟨rel, rfl, ?_⟩
    obtain ⟨host, hs, hh, hrel⟩ := url_to_filename_ok_inv u rel hu
    have hpp : pathParent (cc.location ++ rel) = some ((cc.location ++ rel).dropLast) := by
      rw [hrel]; exact pathParent_append_last _ _ _ _
    cases hcd : eff.createDirOk with
    | false => simp [HttpCache.set, hu, hpp, hcd] at hset
    | true =>
      cases hwc : eff.writeContentOk with
      | false => simp [HttpCache.set, hu, hpp, hcd, hwc] at hset
      | true =>
        cases hso : eff.serializeOk with
        | false => simp [HttpCache.set, hu, hpp, hcd, hwc, hso] at hset
        | true =>
          cases hwh : eff.writeHeadersOk with
          | false => simp [HttpCache.set, hu, hpp, hcd, hwc, hso, hwh] at hset
          | true => simp [HttpCache.set, hu, hpp, hcd, hwc, hso, hwh]

lemma get_after_set (cc : HttpCache) (eff : SetEffects) (fs : FS) (u : Url)
    (M : Headers) (B : List Nat)
    (hset : (HttpCache.set cc eff fs u M B).2 = .ok ()) :
    HttpCache.get cc (HttpCache.set cc eff fs u M B).1 u = .ok (.raw B, M) := by
  obtain ⟨rel, hu, hfs⟩ := set_ok_inv cc eff fs u M B hset
  obtain ⟨host, hs, hh, hrel⟩ := url_to_filename_ok_inv u rel hu
  have hsplit : cc.location ++ rel =
      (cc.location ++ [u.scheme, hostSegment_spec host u.port]) ++
        [checksum_gen [strBytes (rest_string u)]] := by
    rw [hrel]; simp
  have hne : with_extension (cc.location ++ rel) "headers.json" ≠ cc.location ++ rel := by
    rw [hsplit]; exact with_extension_ne _ _ _ (checksum_gen_no_dot _)
  rw [hfs]
  simp [HttpCache.get, hu, Ne.symm hne]
/-! ### Concrete sample values used by the witnesses -/

def wUrl : Url := ⟨"https", some "deno.land", none, "/x/a.ts", none, none⟩

def wUrlFrag : Url := { wUrl with fragment := some "qwer" }

def wUrlPort : Url := ⟨"https", some "example.com", some 8080, "/p", none, none⟩

def wUrlFtp : Url := ⟨"ftp", some "deno.land", none, "/x", none, none⟩

def wCache : HttpCache := ⟨["cache"]⟩

def wEff : SetEffects := ⟨true, true, true, true⟩

def wEffNoSer : SetEffects := ⟨true, true, false, true⟩

def wHeaders : Headers := [("content-type", "application/javascript")]

def wHeaders2 : Headers := [("etag", "as5625rqdsfb")]

def wBytes : List Nat := [104, 101, 108, 108, 111]

def wBytes2 : List Nat := [119, 111, 114, 108, 100]

def wRel : List String := ["https", "deno.land", checksum_gen [strBytes "/x/a.ts"]]

def wFsEmpty : FS := fun _ => none

def wFsCorrupt : FS := fun p =>
  if p = wCache.location ++ wRel then some (.raw wBytes)
  else if p = with_extension (wCache.location ++ wRel) "headers.json" then some (.raw [123])
  else none

/-! ### The claims -/

/-- C1: after a successful `set(u, M, B)`, `get(u)` succeeds and returns
content bytes equal to `B` and a metadata mapping equal to `M` key-for-key;
a header key never inserted into `M` is absent from the mapping `get`
returns. -/
theorem set_get_roundtrip (cc : HttpCache) (eff : SetEffects) (fs : FS) (u : Url)
    (M : Headers) (B : List Nat)
    (hset : (HttpCache.set cc eff fs u M B).2 = .ok ()) :
    HttpCache.get cc (HttpCache.set cc eff fs u M B).1 u = .ok (.raw B, M) ∧
    ∀ k file hdrs, HttpCache.get cc (HttpCache.set cc eff fs u M B).1 u = .ok (file, hdrs) →
      M.lookup k = none → hdrs.lookup k = none := by
  have hmain := get_after_set cc eff fs u M B hset
  refine ⟨hmain, ?_⟩
  intro k file hdrs hget hnone
  rw [hmain] at hget
  obtain ⟨-, h2⟩ := Prod.mk.injEq .. ▸ Except.ok.inj hget
  rw [← h2]
  exact hnone

theorem set_get_roundtrip_w :
    (HttpCache.set wCache wEff wFsEmpty wUrl wHeaders wBytes).2 = .ok () ∧
    (HttpCache.get wCache (HttpCache.set wCache wEff wFsEmpty wUrl wHeaders wBytes).1 wUrl
        = .ok (.raw wBytes, wHeaders) ∧
      ∀ k file hdrs,
        HttpCache.get wCache (HttpCache.set wCache wEff wFsEmpty wUrl wHeaders wBytes).1 wUrl
          = .ok (file, hdrs) → wHeaders.lookup k = none → hdrs.lookup k = none) :=
  ⟨rfl, set_get_roundtrip wCache wEff wFsEmpty wUrl wHeaders wBytes rfl⟩

/-- C2: two URLs that agree on scheme, host, port, path and query (so they can
differ only in the fragment) derive identical relative cache paths. -/
theorem fragment_only_difference_same_path (u v : Url)
    (h1 : u.scheme = v.scheme) (h2 : u.host = v.host) (h3 : u.port = v.port)
    (h4 : u.path = v.path) (h5 : u.query = v.query) :
    url_to_filename u = url_to_filename v := by
  cases u with
  | mk us uh up upa uq uf =>
    cases v with
    | mk vs vh vp vpa vq vf =>
      simp only at h1 h2 h3 h4 h5
      subst h1; subst h2; subst h3; subst h4; subst h5
      rfl

theorem fragment_only_difference_same_path_w :
    wUrl.scheme = wUrlFrag.scheme ∧ wUrl.host = wUrlFrag.host ∧
    wUrl.port = wUrlFrag.port ∧ wUrl.path = wUrlFrag.path ∧
    wUrl.query = wUrlFrag.query ∧
    url_to_filename wUrl = url_to_filename wUrlFrag :=
  ⟨rfl, rfl, rfl, rfl, rfl,
    fragment_only_difference_same_path wUrl wUrlFrag rfl rfl rfl rfl rfl⟩

/-- C3: for http/https URLs, the second path segment produced by
`base_url_to_filename` is `<host>_PORT<port>` when a non-default port is
present, and exactly `<host>` when the port is default or absent. -/
theorem host_segment_port_token (u : Url) (host : String)
    (hs : u.scheme = "http" ∨ u.scheme = "https") (hh : u.host = some host) :
    (∀ port, u.port = some port →
      base_url_to_filename u = .ok [u.scheme, host ++ "_PORT" ++ toString port]) ∧
    (u.port = none → base_url_to_filename u = .ok [u.scheme, host]) := by
  have hb := base_url_eval u host hs hh
  constructor
  · intro port hp
    rw [hp] at hb
    simpa [hostSegment_spec] using hb
  · intro hp
    rw [hp] at hb
    simpa [hostSegment_spec] using hb

theorem host_segment_port_token_w :
    (wUrlPort.scheme = "http" ∨ wUrlPort.scheme = "https") ∧
    wUrlPort.host = some "example.com" ∧
    ((∀ port, wUrlPort.port = some port →
        base_url_to_filename wUrlPort
          = .ok [wUrlPort.scheme, "example.com" ++ "_PORT" ++ toString port]) ∧
      (wUrlPort.port = none →
        base_url_to_filename wUrlPort = .ok [wUrlPort.scheme, "example.com"])) :=
  ⟨Or.inr rfl, rfl, host_segment_port_token wUrlPort "example.com" (Or.inr rfl) rfl⟩

/-- C4: for a URL whose scheme is neither "http" nor "https", deriving the
cache name is a hard failure surfaced as the UnsupportedScheme error (the
`unimplemented!` panic, modelled as an error value), propagated unchanged
through `url_to_filename`, `get` and `set`; no path is produced and the
filesystem is untouched. -/
theorem unsupported_scheme_hard_failure (u : Url)
    (hs : ¬(u.scheme = "http" ∨ u.scheme = "https")) :
    base_url_to_filename u = .error (.UnsupportedScheme u.scheme) ∧
    url_to_filename u = .error (.UnsupportedScheme u.scheme) ∧
    (∀ (cc : HttpCache) (fs : FS),
      HttpCache.get cc fs u = .error (.UnsupportedScheme u.scheme)) ∧
    (∀ (cc : HttpCache) (eff : SetEffects) (fs : FS) (M : Headers) (B : List Nat),
      HttpCache.set cc eff fs u M B = (fs, .error (.UnsupportedScheme u.scheme))) := by
  have hb : base_url_to_filename u = .error (.UnsupportedScheme u.scheme) := by
    unfold base_url_to_filename
    rw [if_neg hs]
  have hu : url_to_filename u = .error (.UnsupportedScheme u.scheme) := by
    unfold url_to_filename
    rw [hb]
  refine ⟨hb, hu, ?_, ?_⟩
  · intro cc fs
    unfold HttpCache.get
    rw [hu]
  · intro cc eff fs M B
    unfold HttpCache.set
    rw [hu]

theorem unsupported_scheme_hard_failure_w :
    (¬(wUrlFtp.scheme = "http" ∨ wUrlFtp.scheme = "https")) ∧
    (base_url_to_filename wUrlFtp = .error (.UnsupportedScheme wUrlFtp.scheme) ∧
      url_to_filename wUrlFtp = .error (.UnsupportedScheme wUrlFtp.scheme) ∧
      (∀ (cc : HttpCache) (fs : FS),
        HttpCache.get cc fs wUrlFtp = .error (.UnsupportedScheme wUrlFtp.scheme)) ∧
      (∀ (cc : HttpCache) (eff : SetEffects) (fs : FS) (M : Headers) (B : List Nat),
        HttpCache.set cc eff fs wUrlFtp M B
          = (fs, .error (.UnsupportedScheme wUrlFtp.scheme)))) :=
  ⟨by decide, unsupported_scheme_hard_failure wUrlFtp (by decide)⟩

/-- C5: `get` on a URL whose derived content file is absent from the store
(never `set`) fails with NotFound. -/
theorem get_missing_content_not_found (cc : HttpCache) (fs : FS) (u : Url)
    (rel : List String)
    (hu : url_to_filename u = .ok rel)
    (hc : fs (cc.location ++ rel) = none) :
    HttpCache.get cc fs u = .error .NotFound := by
  simp [HttpCache.get, hu, hc]

theorem get_missing_content_not_found_w :
    url_to_filename wUrl = .ok wRel ∧
    wFsEmpty (wCache.location ++ wRel) = none ∧
    HttpCache.get wCache wFsEmpty wUrl = .error .NotFound :=
  ⟨rfl, rfl, get_missing_content_not_found wCache wFsEmpty wUrl wRel rfl rfl⟩

/-- C6: when the content file exists but the metadata file is absent, `get`
fails with NotFound; when the metadata file exists but is malformed, `get`
fails with ParseError, which is distinguishable from NotFound. -/
theorem get_metadata_missing_or_malformed (cc : HttpCache) (fs : FS) (u : Url)
    (rel : List String) (file : FileContent)
    (hu : url_to_filename u = .ok rel)
    (hc : fs (cc.location ++ rel) = some file) :
    (fs (with_extension (cc.location ++ rel) "headers.json") = none →
      HttpCache.get cc fs u = .error .NotFound) ∧
    (∀ bytes, fs (with_extension (cc.location ++ rel) "headers.json") = some (.raw bytes) →
      HttpCache.get cc fs u = .error .ParseError) ∧
    CacheErr.ParseError ≠ CacheErr.NotFound := by
  refine ⟨?_, ?_, by decide⟩
  · intro hm
    simp [HttpCache.get, hu, hc, hm]
  · intro bytes hm
    simp [HttpCache.get, hu, hc, hm]

theorem get_metadata_missing_or_malformed_w :
    url_to_filename wUrl = .ok wRel ∧
    wFsCorrupt (wCache.location ++ wRel) = some (.raw wBytes) ∧
    ((wFsCorrupt (with_extension (wCache.location ++ wRel) "headers.json") = none →
        HttpCache.get wCache wFsCorrupt wUrl = .error .NotFound) ∧
      (∀ bytes,
        wFsCorrupt (with_extension (wCache.location ++ wRel) "headers.json")
            = some (.raw bytes) →
          HttpCache.get wCache wFsCorrupt wUrl = .error .ParseError) ∧
      CacheErr.ParseError ≠ CacheErr.NotFound) :=
  ⟨rfl, rfl,
    get_metadata_missing_or_malformed wCache wFsCorrupt wUrl wRel (.raw wBytes) rfl rfl⟩

/-- C7: two successful `set` calls on the same URL followed by `get` return
exactly the second call's bytes and metadata: the second `set` fully replaces
both files, with no merging. -/
theorem second_set_overwrites (cc : HttpCache) (eff1 eff2 : SetEffects) (fs : FS)
    (u : Url) (M1 M2 : Headers) (B1 B2 : List Nat)
    (h1 : (HttpCache.set cc eff1 fs u M1 B1).2 = .ok ())
    (h2 : (HttpCache.set cc eff2 (HttpCache.set cc eff1 fs u M1 B1).1 u M2 B2).2 = .ok ()) :
    HttpCache.get cc
        (HttpCache.set cc eff2 (HttpCache.set cc eff1 fs u M1 B1).1 u M2 B2).1 u
      = .ok (.raw B2, M2) :=
  get_after_set cc eff2 (HttpCache.set cc eff1 fs u M1 B1).1 u M2 B2 h2

theorem second_set_overwrites_w :
    (HttpCache.set wCache wEff wFsEmpty wUrl wHeaders wBytes).2 = .ok () ∧
    (HttpCache.set wCache wEff
        (HttpCache.set wCache wEff wFsEmpty wUrl wHeaders wBytes).1 wUrl
        wHeaders2 wBytes2).2 = .ok () ∧
    HttpCache.get wCache
        (HttpCache.set wCache wEff
          (HttpCache.set wCache wEff wFsEmpty wUrl wHeaders wBytes).1 wUrl
          wHeaders2 wBytes2).1 wUrl
      = .ok (.raw wBytes2, wHeaders2) :=
  ⟨rfl, rfl,
    second_set_overwrites wCache wEff wEff wFsEmpty wUrl wHeaders wHeaders2
      wBytes wBytes2 rfl rfl⟩

/-- C8: for http/https URLs, `url_to_filename` returns exactly the
three-segment path the spec describes (scheme, host segment, hex digest of the
path plus `?` and the query exactly when a query is present); as a pure
function it is deterministic, equal URLs yielding identical paths. -/
theorem derive_path_structure (u : Url) (host : String)
    (hs : u.scheme = "http" ∨ u.scheme = "https") (hh : u.host = some host) :
    url_to_filename u = .ok (derivePath_spec u host) ∧
    (derivePath_spec u host).length = 3 ∧
    (∀ v : Url, v = u → url_to_filename v = url_to_filename u) := by
  refine ⟨?_, rfl, fun v hv => by rw [hv]⟩
  have h := url_to_filename_eval u host hs hh
  simpa [derivePath_spec, hostSegment_spec, rest_string] using h

theorem derive_path_structure_w :
    (wUrl.scheme = "http" ∨ wUrl.scheme = "https") ∧
    wUrl.host = some "deno.land" ∧
    (url_to_filename wUrl = .ok (derivePath_spec wUrl "deno.land") ∧
      (derivePath_spec wUrl "deno.land").length = 3 ∧
      (∀ v : Url, v = wUrl → url_to_filename v = url_to_filename wUrl)) :=
  ⟨Or.inr rfl, rfl, derive_path_structure wUrl "deno.land" (Or.inr rfl) rfl⟩

/-- C9: `set` writes the content file before serializing or writing the
metadata file: when serialization fails it returns SerializationError, when
the metadata write fails it returns IOError, and in both cases the content
file at the derived path already holds the new bytes, so `set` is not atomic
and leaves the entry in a mixed state. -/
theorem set_writes_content_before_metadata (cc : HttpCache) (eff : SetEffects)
    (fs : FS) (u : Url) (M : Headers) (B : List Nat) (rel : List String)
    (hu : url_to_filename u = .ok rel)
    (hcd : eff.createDirOk = true) (hwc : eff.writeContentOk = true)
    (hfail : eff.serializeOk = false ∨ eff.writeHeadersOk = false) :
    (HttpCache.set cc eff fs u M B).1 (cc.location ++ rel) = some (.raw B) ∧
    (eff.serializeOk = false →
      (HttpCache.set cc eff fs u M B).2 = .error .SerializationError) ∧
    (eff.serializeOk = true → eff.writeHeadersOk = false →
      (HttpCache.set cc eff fs u M B).2 = .error .IOError) ∧
    (HttpCache.set cc eff fs u M B).2 ≠ .ok () := by
  obtain ⟨host, hs, hh, hrel⟩ := url_to_filename_ok_inv u rel hu
  have hpp : pathParent (cc.location ++ rel) = some ((cc.location ++ rel).dropLast) := by
    rw [hrel]; exact pathParent_append_last _ _ _ _
  cases hso : eff.serializeOk with
  | false =>
    refine ⟨?_, ?_, ?_, ?_⟩
    · simp [HttpCache.set, hu, hpp, hcd, hwc, hso]
    · intro _
      simp [HttpCache.set, hu, hpp, hcd, hwc, hso]
    · intro habs
      simp at habs
    · simp [HttpCache.set, hu, hpp, hcd, hwc, hso]
  | true =>
    rcases hfail with hso2 | hwh
    · rw [hso2] at hso; cases hso
    · refine ⟨?_, ?_, ?_, ?_⟩
      · simp [HttpCache.set, hu, hpp, hcd, hwc, hso, hwh]
      · intro habs
        simp at habs
      · intro _ _
        simp [HttpCache.set, hu, hpp, hcd, hwc, hso, hwh]
      · simp [HttpCache.set, hu, hpp, hcd, hwc, hso, hwh]

theorem set_writes_content_before_metadata_w :
    url_to_filename wUrl = .ok wRel ∧
    wEffNoSer.createDirOk = true ∧
    wEffNoSer.writeContentOk = true ∧
    (wEffNoSer.serializeOk = false ∨ wEffNoSer.writeHeadersOk = false) ∧
    ((HttpCache.set wCache wEffNoSer wFsEmpty wUrl wHeaders wBytes).1
        (wCache.location ++ wRel) = some (.raw wBytes) ∧
      (wEffNoSer.serializeOk = false →
        (HttpCache.set wCache wEffNoSer wFsEmpty wUrl wHeaders wBytes).2
          = .error .SerializationError) ∧
      (wEffNoSer.serializeOk = true → wEffNoSer.writeHeadersOk = false →
        (HttpCache.set wCache wEffNoSer wFsEmpty wUrl wHeaders wBytes).2
          = .error .IOError) ∧
      (HttpCache.set wCache wEffNoSer wFsEmpty wUrl wHeaders wBytes).2 ≠ .ok ()) :=
  ⟨rfl, rfl, rfl, Or.inl rfl,
    set_writes_content_before_metadata wCache wEffNoSer wFsEmpty wUrl wHeaders
      wBytes wRel rfl rfl rfl (Or.inl rfl)⟩

/-- C10: for http/https URLs with a host present, the host access in
`base_url_to_filename` never fails, the derived cache path always has a parent
directory, and `set` never aborts on either internal assertion. -/
theorem no_internal_panic_on_http_https (u : Url) (host : String)
    (hs : u.scheme = "http" ∨ u.scheme = "https") (hh : u.host = some host) :
    (∃ b, base_url_to_filename u = .ok b) ∧
    (∃ rel, url_to_filename u = .ok rel) ∧
    (∀ (cc : HttpCache) (rel : List String), url_to_filename u = .ok rel →
      pathParent (cc.location ++ rel) = some ((cc.location ++ rel).dropLast)) ∧
    (∀ (cc : HttpCache) (eff : SetEffects) (fs : FS) (M : Headers) (B : List Nat),
      (HttpCache.set cc eff fs u M B).2 ≠ .error .PanicNoHost ∧
      (HttpCache.set cc eff fs u M B).2 ≠ .error .PanicParentMissing) := by
  have hu := url_to_filename_eval u host hs hh
  refine ⟨⟨_, base_url_eval u host hs hh⟩, ⟨_, hu⟩, ?_, ?_⟩
  · intro cc rel hrelok
    obtain ⟨host2, _, _, hrel⟩ := url_to_filename_ok_inv u rel hrelok
    rw [hrel]
    exact pathParent_append_last _ _ _ _
  · intro cc eff fs M B
    have hpp : pathParent
        (cc.location ++ [u.scheme, hostSegment_spec host u.port,
          checksum_gen [strBytes (rest_string u)]])
        = some ((cc.location ++ [u.scheme, hostSegment_spec host u.port,
            checksum_gen [strBytes (rest_string u)]]).dropLast) :=
      pathParent_append_last _ _ _ _
    cases hcd : eff.createDirOk <;> cases hwc : eff.writeContentOk <;>
      cases hso : eff.serializeOk <;> cases hwh : eff.writeHeadersOk <;>
      exact ⟨by simp [HttpCache.set, hu, hpp, hcd, hwc, hso, hwh],
             by simp [HttpCache.set, hu, hpp, hcd, hwc, hso, hwh]⟩

theorem no_internal_panic_on_http_https_w :
    (wUrl.scheme = "http" ∨ wUrl.scheme = "https") ∧
    wUrl.host = some "deno.land" ∧
    ((∃ b, base_url_to_filename wUrl = .ok b) ∧
      (∃ rel, url_to_filename wUrl = .ok rel) ∧
      (∀ (cc : HttpCache) (rel : List String), url_to_filename wUrl = .ok rel →
        pathParent (cc.location ++ rel) = some ((cc.location ++ rel).dropLast)) ∧
      (∀ (cc : HttpCache) (eff : SetEffects) (fs : FS) (M : Headers) (B : List Nat),
        (HttpCache.set cc eff fs wUrl M B).2 ≠ .error .PanicNoHost ∧
        (HttpCache.set cc eff fs wUrl M B).2 ≠ .error .PanicParentMissing)) :=
  ⟨Or.inr rfl, rfl, no_internal_panic_on_http_https wUrl "deno.land" (Or.inr rfl) rfl⟩

end HttpCacheModel
